import Mathlib

/-!
Verification development for the Firefox download/cache/extract/locate
subsystem of `lib/firefox-downloader.mjs`.

The JavaScript source is embedded shallowly:
* the extracted directory tree is modelled by the inductive `Entry`
  (a named file or a named directory with children);
* `findFirefoxBinary` is translated function-by-function, with
  `existsSync` on a joined path becoming `lookupPath` inside the tree
  and `readdir` becoming direct access to the children of a directory;
* `downloadFirefox` is modelled as a function from an abstract `World`
  (the outcomes of the filesystem, HTTP and subprocess effects) to a
  result together with a trace of the effectful actions it performs;
* `extractDmg` is modelled the same way over its own effect outcomes.
-/

namespace FirefoxDownloader

/-- `process.platform`, restricted to the values the code branches on. -/
inductive Platform where
  | darwin
  | linux
  | other
deriving DecidableEq, Repr

/-- A node of the extracted directory tree: a file or a directory with
its children, as surfaced by `readdir(..., { withFileTypes: true })`. -/
inductive Entry where
  | file (name : String)
  | dir (name : String) (children : List Entry)

def Entry.name : Entry → String
  | .file n => n
  | .dir n _ => n

def Entry.isDir : Entry → Bool
  | .file _ => false
  | .dir _ _ => true

def Entry.isFile : Entry → Bool
  | .file _ => true
  | .dir _ _ => false

/-- `path.join` restricted to two non-empty segments: the code only ever
joins non-empty names under a base directory. -/
def joinP (a b : String) : String := a ++ "/" ++ b

/-- Find the directory entry with a given name (names are unique within
a real directory; we take the first). -/
def lookup (es : List Entry) (n : String) : Option Entry :=
  es.find? (fun e => e.name = n)

/-- Resolve a non-empty relative path inside a directory listing.
Descending through a file fails, matching `existsSync` on a real
filesystem (ENOTDIR). -/
def lookupPath : List Entry → List String → Option Entry
  | _, [] => none
  | es, [n] => lookup es n
  | es, n :: rest =>
    match lookup es n with
    | some (.dir _ cs) => lookupPath cs rest
    | _ => none

/-- `existsSync(join(base, segs...))` relative to a directory listing. -/
def existsAt (es : List Entry) (segs : List String) : Bool :=
  (lookupPath es segs).isSome

/-- JS `String.prototype.endsWith`, phrased on character lists so that
it evaluates by kernel reduction. -/
def strEndsWith (s suffix : String) : Bool :=
  decide (suffix.toList <:+ s.toList)

/-- The `executableNames` list of `findFirefoxBinary` (macOS branch). -/
def executableNames : List String :=
  ["firefox", "firefox-bin", "Firefox Nightly", "Firefox Developer Edition", "Firefox"]

/-- The body of the macOS per-bundle search: given one `.app` candidate
entry `e` under `base`, check `Contents/MacOS` for the known executable
names, then fall back to the first regular file in that directory
(`readdir` of a non-directory throws and is caught, yielding nothing). -/
def bundleSearch (base : String) (e : Entry) : Option String :=
  match e with
  | .file _ => none
  | .dir name children =>
    let macOSDir := joinP (joinP (joinP base name) "Contents") "MacOS"
    match lookupPath children ["Contents", "MacOS"] with
    | none => none
    | some macEntry =>
      match executableNames.find? (fun n => existsAt children ["Contents", "MacOS", n]) with
      | some n => some (joinP macOSDir n)
      | none =>
        match macEntry with
        | .file _ => none
        | .dir _ macChildren =>
          match macChildren.find? Entry.isFile with
          | some f => some (joinP macOSDir (f.name))
          | none => none

/-- The macOS loop over `.app` bundles found at this level (the code
filters `entries` down to directories whose name ends in `.app` and
tries `bundleSearch` on each, in order). -/
def darwinAppSearch (base : String) : List Entry → Option String
  | [] => none
  | e :: rest =>
    if e.isDir && strEndsWith e.name ".app" then
      match bundleSearch base e with
      | some r => some r
      | none => darwinAppSearch base rest
    else darwinAppSearch base rest

/-- The Linux branch: check the two fixed relative paths
`firefox/firefox` then `firefox/firefox-bin`. -/
def linuxSearch (base : String) (es : List Entry) : Option String :=
  if existsAt es ["firefox", "firefox"] then
    some (joinP (joinP base "firefox") "firefox")
  else if existsAt es ["firefox", "firefox-bin"] then
    some (joinP (joinP base "firefox") "firefox-bin")
  else none

mutual

/-- `findFirefoxBinary(extractDir)`: macOS section (bundle search, then
recursion into non-`.app` subdirectories), then Linux fixed paths, then
the final fallback recursion into all subdirectories. -/
def findFirefoxBinary (plat : Platform) (base : String) (es : List Entry) :
    Option String :=
  let darwinResult : Option String :=
    if plat = Platform.darwin then
      match darwinAppSearch base es with
      | some r => some r
      | none => recurseDirs plat base true es
    else none
  match darwinResult with
  | some r => some r
  | none =>
    match (if plat = Platform.linux then linuxSearch base es else none) with
    | some r => some r
    | none => recurseDirs plat base false es
termination_by 2 * sizeOf es + 1

/-- A loop `for (const entry of entries) { if (entry.isDirectory()) ... }`
recursing into subdirectories; with `skipApp = true` it is the macOS
nested-structure loop (which skips `.app` directories), with
`skipApp = false` it is the final fallback loop. First found wins. -/
def recurseDirs (plat : Platform) (base : String) (skipApp : Bool) :
    List Entry → Option String
  | [] => none
  | .file _ :: rest => recurseDirs plat base skipApp rest
  | .dir name children :: rest =>
    if skipApp && strEndsWith name ".app" then
      recurseDirs plat base skipApp rest
    else
      match findFirefoxBinary plat (joinP base name) children with
      | some r => some r
      | none => recurseDirs plat base skipApp rest
termination_by es => 2 * sizeOf es

end

/-! ### String helpers used by `downloadFirefox` -/

/-- Node `path.basename` (posix, no extension argument): ignore trailing
separators, then take everything after the last `/`; a path made only of
separators yields `/`, the empty path yields the empty string. -/
def basenameStr (p : String) : String :=
  if p.toList = [] then ""
  else if p.toList.reverse.dropWhile (fun c => c = '/') = [] then "/"
  else String.mk
    ((p.toList.reverse.dropWhile (fun c => c = '/')).takeWhile (fun c => c ≠ '/')).reverse

/-- The JS `split` on the question mark, index 0, as applied to the
basename: everything before the first `?` character. -/
def stripQuery (s : String) : String :=
  String.mk (s.toList.takeWhile (fun c => c ≠ '?'))

/-- The md5 hex digest of the URL, modelled as an abstract deterministic
digest of the URL string; no property proved here depends on the digest
value, only on its being a function of the URL. -/
def urlHash (url : String) : String := url

/-! ### The download pipeline -/

/-- The `{binaryPath, version, extractPath}` record returned by
`downloadFirefox` and persisted in the per-URL cache file. -/
structure CacheEntry where
  binaryPath : String
  version : String
  extractPath : String
deriving DecidableEq, Repr

/-- Error kinds raised by the pipeline (the source throws `Error`s with
distinguishing messages; we keep the kinds apart). -/
inductive DlError where
  | downloadError
  | unsupportedFormat
  | extractionFailed
  | mountError
  | binaryNotFound
deriving DecidableEq, Repr

/-- Outcome of `fetch(url)`: the call throws (network failure), or it
returns a response whose `ok` flag is given. -/
inductive FetchOutcome where
  | throws
  | status (ok : Bool)
deriving DecidableEq, Repr

/-- Observable effectful actions of one `downloadFirefox` run. -/
inductive Action where
  | fetch (url : String)
  | streamTo (path : String)
  | tarExtract (file : String) (cwd : String)
  | dmgExtract (file : String) (dest : String)
  | chmod (path : String)
  | probeVersion (path : String)
  | writeCache (path : String) (entry : CacheEntry)
deriving DecidableEq, Repr

/-- The outcomes of the external effects a single `downloadFirefox`
invocation can encounter, fixed up front. -/
structure World where
  platform : Platform
  /-- `existsSync(cacheFile)` -/
  cacheFilePresent : Bool
  /-- result of `JSON.parse(readFileSync(cacheFile))`; `none` models a
  read/parse exception (caught, warned, treated as a miss) -/
  cacheParse : Option CacheEntry
  /-- `existsSync(cached.binaryPath)` -/
  cachedBinaryOnDisk : Bool
  fetchOutcome : FetchOutcome
  /-- `pipeline(response.body, createWriteStream(downloadPath))` succeeds -/
  streamOk : Bool
  /-- the dispatched extraction (tar or dmg) succeeds -/
  extractOk : Bool
  /-- the contents of `extractDir` after a successful extraction -/
  tree : List Entry
  /-- result of the version probe; `none` models any probe failure -/
  versionProbe : Option String

/-- The suffix dispatch of the extraction step (lines 71-86 of the
source): `.tar.bz2` and `.tar.gz` each invoke `tar.extract({file, cwd})`,
`.dmg` invokes `extractDmg`, anything else throws. -/
def extractDispatch (downloadPath extractDir : String) : Option Action :=
  if strEndsWith downloadPath ".tar.bz2" then
    some (Action.tarExtract downloadPath extractDir)
  else if strEndsWith downloadPath ".tar.gz" then
    some (Action.tarExtract downloadPath extractDir)
  else if strEndsWith downloadPath ".dmg" then
    some (Action.dmgExtract downloadPath extractDir)
  else none

/-- The download-extract-locate-cache pipeline of `downloadFirefox`
(source lines 44-118): everything after the cache check. This part of
the source never reads `forceDownload`. -/
def freshDownload (url cacheDir : String) (w : World) :
    Except DlError CacheEntry × List Action :=
  let cacheFile := joinP cacheDir (urlHash url ++ ".json")
  let archiveName := stripQuery (basenameStr url)
  let downloadPath := joinP cacheDir archiveName
  match w.fetchOutcome with
  | FetchOutcome.throws => (Except.error DlError.downloadError, [Action.fetch url])
  | FetchOutcome.status ok =>
    if ok = false then
      (Except.error DlError.downloadError, [Action.fetch url])
    else if w.streamOk = false then
      (Except.error DlError.downloadError,
        [Action.fetch url, Action.streamTo downloadPath])
    else
      let t1 := [Action.fetch url, Action.streamTo downloadPath]
      let extractDir := joinP cacheDir ("firefox-" ++ urlHash url)
      match extractDispatch downloadPath extractDir with
      | none => (Except.error DlError.unsupportedFormat, t1)
      | some act =>
        if w.extractOk = false then
          (Except.error DlError.extractionFailed, t1 ++ [act])
        else
          match findFirefoxBinary w.platform extractDir w.tree with
          | none => (Except.error DlError.binaryNotFound, t1 ++ [act])
          | some bin =>
            let version := w.versionProbe.getD "unknown"
            let result : CacheEntry :=
              { binaryPath := bin, version := version, extractPath := extractDir }
            (Except.ok result,
              t1 ++ [act, Action.chmod bin, Action.probeVersion bin,
                Action.writeCache cacheFile result])

/-- `downloadFirefox(url, { cacheDir, forceDownload })`, as a function of
the effect outcomes `w`, returning the result (or error kind) together
with the trace of performed actions. -/
def downloadFirefox (url cacheDir : String) (forceDownload : Bool) (w : World) :
    Except DlError CacheEntry × List Action :=
  let cacheHit : Option CacheEntry :=
    if forceDownload = false ∧ w.cacheFilePresent then
      match w.cacheParse with
      | some cached => if w.cachedBinaryOnDisk then some cached else none
      | none => none
    else none
  match cacheHit with
  | some cached => (Except.ok cached, [])
  | none => freshDownload url cacheDir w

/-! ### Matching rules of the binary locator, as tree predicates -/

/-- One `.app` bundle entry satisfies the macOS executable rules: it is
a directory whose name ends in `.app`, its `Contents/MacOS` path exists,
and either a known executable name exists under it or it is a directory
containing at least one regular file. -/
def bundleMatches : Entry → Bool
  | .file _ => false
  | .dir name children =>
    strEndsWith name ".app" &&
    (match lookupPath children ["Contents", "MacOS"] with
     | none => false
     | some macEntry =>
       (executableNames.any (fun n => existsAt children ["Contents", "MacOS", n])) ||
       (match macEntry with
        | .dir _ macChildren => macChildren.any Entry.isFile
        | .file _ => false))

/-- The Linux fixed relative paths exist at this level. -/
def linuxMatches (es : List Entry) : Bool :=
  existsAt es ["firefox", "firefox"] || existsAt es ["firefox", "firefox-bin"]

/-- Some entry at this level matches the executable rules of the current
platform. -/
def levelMatches (plat : Platform) (es : List Entry) : Bool :=
  (if plat = Platform.darwin then es.any bundleMatches else false) ||
  (if plat = Platform.linux then linuxMatches es else false)

mutual

/-- Some level of the tree (this one or any descendant directory)
matches the executable rules of the platform. -/
def treeHasMatch (plat : Platform) (es : List Entry) : Bool :=
  levelMatches plat es || anyDirHasMatch plat es
termination_by 2 * sizeOf es + 1

/-- Some directory among these entries has a matching descendant level. -/
def anyDirHasMatch (plat : Platform) : List Entry → Bool
  | [] => false
  | .file _ :: rest => anyDirHasMatch plat rest
  | .dir _ children :: rest => treeHasMatch plat children || anyDirHasMatch plat rest
termination_by es => 2 * sizeOf es

end

/-! ### DMG extraction -/

/-- Observable actions of one `extractDmg` run. -/
inductive DmgAction where
  | attach (dmgPath : String)
  | listVolume (mountPoint : String)
  | copyBundle (src : String) (dest : String)
  | detach (mountPoint : String)
  | warnDetachFailed (mountPoint : String)
deriving DecidableEq, Repr

/-- Effect outcomes for one `extractDmg` run. -/
structure DmgWorld where
  /-- stdout of `hdiutil attach`; `none` models the command throwing -/
  attachOutput : Option String
  /-- stdout of `ls mountPoint`; `none` models the command throwing -/
  lsOutput : Option String
  /-- `cp -R` succeeds -/
  copyOk : Bool
  /-- `hdiutil detach` succeeds -/
  detachOk : Bool

/-- Split a character list at every occurrence of a separator, the JS
`split` semantics (`"a\n".split` gives a trailing empty segment). -/
def splitOnChar (sep : Char) : List Char → List (List Char)
  | [] => [[]]
  | c :: rest =>
    match splitOnChar sep rest with
    | [] => [[c]]
    | h :: t => if c = sep then [] :: h :: t else (c :: h) :: t

/-- The lines of a piece of subprocess output. -/
def lines (s : String) : List String :=
  (splitOnChar '\n' s.toList).map String.mk

/-- JS `String.prototype.trim`, on the whitespace characters that occur
in subprocess output. -/
def trimStr (s : String) : String :=
  let ws : Char → Bool := fun c => c = ' ' || c = '\t' || c = '\r'
  String.mk (((s.toList.dropWhile ws).reverse.dropWhile ws).reverse)

/-- The regex match `attachOutput.match(/\/Volumes\/.+$/m)`: the
leftmost occurrence, on any line, of `/Volumes/` followed by at least
one character, extending to the end of that line. -/
def volumesMatch : List Char → Option (List Char)
  | [] => none
  | c :: rest =>
    if ("/Volumes/".toList <+: c :: rest) ∧ (c :: rest).length > "/Volumes/".length then
      some (c :: rest)
    else volumesMatch rest

/-- Mount-point parsing from the `hdiutil attach` output: find the match
line by line (leftmost overall), then `.trim()`. -/
def findMountPoint (out : String) : Option String :=
  (lines out).findSome? (fun line =>
    (volumesMatch line.toList).map (fun cs => trimStr (String.mk cs)))

/-- `extractDmg(dmgPath, extractDir)`: mount, parse the mount point,
then inside a `try` find and copy the `.app` bundle, and in the
`finally` always attempt `hdiutil detach`, downgrading a detach failure
to a warning. -/
def extractDmg (dmgPath extractDir : String) (w : DmgWorld) :
    Except DlError Unit × List DmgAction :=
  match w.attachOutput with
  | none => (Except.error DlError.mountError, [DmgAction.attach dmgPath])
  | some out =>
    match findMountPoint out with
    | none => (Except.error DlError.mountError, [DmgAction.attach dmgPath])
    | some mountPoint =>
      let inner : Except DlError Unit × List DmgAction :=
        match w.lsOutput with
        | none => (Except.error DlError.extractionFailed, [DmgAction.listVolume mountPoint])
        | some ls =>
          match (lines ls).find? (fun name => strEndsWith name ".app") with
          | none =>
            (Except.error DlError.extractionFailed, [DmgAction.listVolume mountPoint])
          | some appBundle =>
            let copyAct := DmgAction.copyBundle (joinP mountPoint appBundle) extractDir
            if w.copyOk then (Except.ok (), [DmgAction.listVolume mountPoint, copyAct])
            else (Except.error DlError.extractionFailed,
              [DmgAction.listVolume mountPoint, copyAct])
      let cleanup : List DmgAction :=
        if w.detachOk then [DmgAction.detach mountPoint]
        else [DmgAction.detach mountPoint, DmgAction.warnDetachFailed mountPoint]
      (inner.1, DmgAction.attach dmgPath :: inner.2 ++ cleanup)

/-! ### Shared lemmas -/

/-- Whenever the cache check misses (forced, file absent, parse failure,
or recorded binary gone), `downloadFirefox` is exactly the fresh
pipeline. -/
theorem downloadFirefox_eq_fresh (url cd : String) (force : Bool) (w : World)
    (hmiss : force = true ∨ w.cacheFilePresent = false ∨ w.cacheParse = none ∨
      w.cachedBinaryOnDisk = false) :
    downloadFirefox url cd force w = freshDownload url cd w := by
  rcases hmiss with h | h | h | h
  · simp [downloadFirefox, h]
  · simp [downloadFirefox, h]
  · simp [downloadFirefox, h]
  · cases hcp : w.cacheParse <;> simp [downloadFirefox, h, hcp]

/-- The fresh pipeline always performs the HTTP fetch. -/
theorem fetch_mem_fresh (url cd : String) (w : World) :
    Action.fetch url ∈ (freshDownload url cd w).2 := by
  cases hf : w.fetchOutcome with
  | throws => simp [freshDownload, hf]
  | status ok =>
    cases ok <;> by_cases hs : w.streamOk <;>
      simp [freshDownload, hf, hs] <;>
      rcases hd : extractDispatch (joinP cd (stripQuery (basenameStr url)))
          (joinP cd ("firefox-" ++ urlHash url)) with _ | a <;>
      by_cases he : w.extractOk <;>
      simp [hd, he] <;>
      rcases hb : findFirefoxBinary w.platform (joinP cd ("firefox-" ++ urlHash url)) w.tree <;>
        simp [hb]

/-- `takeWhile` over an append whose first part satisfies the predicate
throughout. -/
theorem takeWhile_append_all {p : Char → Bool} (l1 l2 : List Char)
    (h : ∀ a ∈ l1, p a = true) :
    (l1 ++ l2).takeWhile p = l1 ++ l2.takeWhile p := by
  induction l1 with
  | nil => simp
  | cons a l ih =>
    simp only [List.cons_append, List.takeWhile_cons, h a (List.mem_cons_self a l)]
    rw [ih (fun b hb => h b (List.mem_cons_of_mem a hb))]
    simp

/-- The characters of a well-formed URL split as prefix, slash, last
segment, query; the downloaded file name computed by the source
(basename, then split at the question mark) is the last path segment
with the query stripped. -/
theorem stripQuery_basename (pre seg qs : String)
    (h1 : seg.toList ≠ [])
    (h2 : ∀ c ∈ seg.toList, c ≠ '/')
    (h3 : ∀ c ∈ seg.toList, c ≠ '?')
    (h4 : ∀ c ∈ qs.toList, c ≠ '/')
    (h5 : qs.toList = [] ∨ ∃ r, qs.toList = '?' :: r) :
    stripQuery (basenameStr (pre ++ "/" ++ seg ++ qs)) = seg := by
  have hL : (pre ++ "/" ++ seg ++ qs).toList =
      pre.toList ++ '/' :: (seg.toList ++ qs.toList) := by
    simp [String.toList]
  obtain ⟨a, A, hA⟩ : ∃ a A, (seg.toList ++ qs.toList).reverse = a :: A := by
    rcases hrev : (seg.toList ++ qs.toList).reverse with _ | ⟨a, A⟩
    · have := congrArg List.reverse hrev
      simp at this
      exact absurd this.1 h1
    · exact ⟨a, A, rfl⟩
  have hmem : ∀ c ∈ a :: A, c ≠ '/' := by
    intro c hc
    have : c ∈ seg.toList ++ qs.toList := by
      rw [← List.mem_reverse, hA]; exact hc
    rcases List.mem_append.mp this with h | h
    · exact h2 c h
    · exact h4 c h
  have hrevL : (pre ++ "/" ++ seg ++ qs).toList.reverse =
      (a :: A) ++ '/' :: pre.toList.reverse := by
    rw [hL, List.reverse_append, List.reverse_cons, hA]
    simp [List.append_assoc]
  have hbase : basenameStr (pre ++ "/" ++ seg ++ qs) =
      String.mk (seg.toList ++ qs.toList) := by
    unfold basenameStr
    rw [if_neg (by simp [hL]), hrevL, List.cons_append]
    rw [List.dropWhile_cons_of_neg (by simp [hmem a (List.mem_cons_self a A)])]
    rw [if_neg (by simp), ← List.cons_append]
    rw [takeWhile_append_all _ _ (by intro c hc; simpa using hmem c hc)]
    rw [List.takeWhile_cons_of_neg (by simp)]
    rw [List.append_nil, ← hA, List.reverse_reverse]
  rw [hbase]
  unfold stripQuery
  show String.mk ((seg.toList ++ qs.toList).takeWhile _) = seg
  rw [takeWhile_append_all _ _ (by intro c hc; simpa using h3 c hc)]
  rcases h5 with h5 | ⟨r, h5⟩
  · rw [h5]
    simp
  · rw [h5, List.takeWhile_cons_of_neg (by simp), List.append_nil]
    rfl

/-- The fresh pipeline with a well-statused response always streams to
`cacheDir/archiveName`. -/
theorem streamTo_mem_fresh (url cd : String) (w : World)
    (hfetch : w.fetchOutcome = FetchOutcome.status true) :
    Action.streamTo (joinP cd (stripQuery (basenameStr url))) ∈
      (freshDownload url cd w).2 := by
  by_cases hs : w.streamOk <;>
    simp [freshDownload, hfetch, hs] <;>
    rcases hd : extractDispatch (joinP cd (stripQuery (basenameStr url)))
        (joinP cd ("firefox-" ++ urlHash url)) with _ | a <;>
    by_cases he : w.extractOk <;>
    simp [hd, he] <;>
    rcases hb : findFirefoxBinary w.platform (joinP cd ("firefox-" ++ urlHash url)) w.tree <;>
      simp [hb]

/-! ### A family of arbitrarily deep trees for the fallback recursion -/

/-- A chain of `k` nested wrapper directories with the flat Firefox
layout at the bottom. -/
def chainTree : Nat → List Entry
  | 0 => [Entry.dir "firefox" [Entry.file "firefox"]]
  | k + 1 => [Entry.dir "sub" (chainTree k)]

/-- The path of the binary at the bottom of `chainTree k`. -/
def chainPath (base : String) : Nat → String
  | 0 => joinP (joinP base "firefox") "firefox"
  | k + 1 => chainPath (joinP base "sub") k

/-- The locator finds the binary at the bottom of a chain of any depth. -/
theorem find_chain (k : Nat) : ∀ base,
    findFirefoxBinary Platform.linux base (chainTree k) = some (chainPath base k) := by
  induction k with
  | zero =>
    intro base
    simp [chainTree, chainPath, findFirefoxBinary, linuxSearch, existsAt,
      lookupPath, lookup, Entry.name]
  | succ k ih =>
    intro base
    simp [chainTree, chainPath, findFirefoxBinary, linuxSearch, existsAt,
      lookupPath, lookup, Entry.name, recurseDirs, ih]

/-- First-match-wins for the subdirectory loop: if every directory
before `dir n c` recurses to nothing and the recursion into `c` finds
`r`, the loop answers `r` whatever follows. -/
theorem recurseDirs_false_append (plat : Platform) (base : String)
    (es1 : List Entry) (n : String) (c : List Entry) (es2 : List Entry) (r : String)
    (hprev : ∀ nm ch, Entry.dir nm ch ∈ es1 →
      findFirefoxBinary plat (joinP base nm) ch = none)
    (hfound : findFirefoxBinary plat (joinP base n) c = some r) :
    recurseDirs plat base false (es1 ++ Entry.dir n c :: es2) = some r := by
  induction es1 with
  | nil => simp [recurseDirs, hfound]
  | cons e rest ih =>
    cases e with
    | file nm =>
      rw [List.cons_append]
      simp only [recurseDirs]
      exact ih (fun nm ch hm => hprev nm ch (List.mem_cons_of_mem _ hm))
    | dir nm ch =>
      rw [List.cons_append]
      have hz := hprev nm ch (List.mem_cons_self _ _)
      simp only [recurseDirs, Bool.false_and, if_false, hz]
      exact ih (fun nm ch hm => hprev nm ch (List.mem_cons_of_mem _ hm))

/-! ### Exhaustion: nothing matches, nothing is found -/

/-- A non-matching `.app` bundle yields nothing from the per-bundle
search. -/
theorem bundleSearch_eq_none (base nm : String) (ch : List Entry)
    (hnm : bundleMatches (Entry.dir nm ch) = false)
    (happ : strEndsWith nm ".app" = true) :
    bundleSearch base (Entry.dir nm ch) = none := by
  rw [bundleMatches, happ, Bool.true_and] at hnm
  rw [bundleSearch]
  rcases hlp : lookupPath ch ["Contents", "MacOS"] with _ | macEntry
  · simp
  · rw [hlp] at hnm
    have hboth := Bool.or_eq_false_iff.mp hnm
    have hfind : executableNames.find?
        (fun n => existsAt ch ["Contents", "MacOS", n]) = none := by
      rw [List.find?_eq_none]
      intro x hx
      have hany := hboth.1
      rw [List.any_eq_false] at hany
      exact hany x hx
    rw [hfind]
    rcases macEntry with nmf | ⟨nmd, mc⟩
    · simp
    · have hmc : mc.any Entry.isFile = false := hboth.2
      have : mc.find? Entry.isFile = none := by
        rw [List.find?_eq_none]
        intro x hx
        rw [List.any_eq_false] at hmc
        simp [hmc x hx]
      simp [this]

/-- If no `.app` bundle at this level matches, the bundle loop yields
nothing. -/
theorem darwinAppSearch_none (base : String) (es : List Entry)
    (h : es.any bundleMatches = false) :
    darwinAppSearch base es = none := by
  induction es with
  | nil => rw [darwinAppSearch]
  | cons e rest ih =>
    rw [List.any_cons, Bool.or_eq_false_iff] at h
    rw [darwinAppSearch]
    by_cases hc : (e.isDir && strEndsWith e.name ".app") = true
    · rcases e with nm | ⟨nm, ch⟩
      · simp [Entry.isDir] at hc
      · rw [Bool.and_eq_true] at hc
        rw [bundleSearch_eq_none base nm ch h.1 hc.2]
        simp [hc.1, hc.2, ih h.2]
    · rw [if_neg hc]
      exact ih h.2

/-- If the fixed Linux paths are absent, the Linux branch yields
nothing. -/
theorem linuxSearch_none (base : String) (es : List Entry)
    (h : linuxMatches es = false) :
    linuxSearch base es = none := by
  rw [linuxMatches, Bool.or_eq_false_iff] at h
  rw [linuxSearch, h.1, h.2]
  simp

/-- The subdirectory loop yields nothing when every recursion into a
subdirectory yields nothing. -/
theorem recurseDirs_none_of (plat : Platform) (base : String) (skipApp : Bool)
    (es : List Entry)
    (h : ∀ nm ch, Entry.dir nm ch ∈ es →
      findFirefoxBinary plat (joinP base nm) ch = none) :
    recurseDirs plat base skipApp es = none := by
  induction es with
  | nil => rw [recurseDirs]
  | cons e rest ih =>
    cases e with
    | file nm =>
      rw [recurseDirs]
      exact ih (fun nm ch hm => h nm ch (List.mem_cons_of_mem _ hm))
    | dir nm ch =>
      rw [recurseDirs]
      by_cases hsk : (skipApp && strEndsWith nm ".app") = true
      · rw [if_pos hsk]
        exact ih (fun nm ch hm => h nm ch (List.mem_cons_of_mem _ hm))
      · rw [if_neg hsk, h nm ch (List.mem_cons_self _ _)]
        exact ih (fun nm ch hm => h nm ch (List.mem_cons_of_mem _ hm))

/-- A subtree of a level with no matching descendant has no match. -/
theorem anyDir_false_sub (plat : Platform) (es : List Entry)
    (h : anyDirHasMatch plat es = false) :
    ∀ nm ch, Entry.dir nm ch ∈ es → treeHasMatch plat ch = false := by
  induction es with
  | nil => intro nm ch hm; cases hm
  | cons e rest ih =>
    intro nm ch hm
    cases e with
    | file n0 =>
      rw [anyDirHasMatch] at h
      rcases List.mem_cons.mp hm with he | he
      · cases he
      · exact ih h nm ch he
    | dir n0 c0 =>
      rw [anyDirHasMatch, Bool.or_eq_false_iff] at h
      rcases List.mem_cons.mp hm with he | he
      · cases he; exact h.1
      · exact ih h.2 nm ch he

/-- No level of the tree matches the executable rules: the locator
returns `none`, at every base, by strong induction on the tree size. -/
theorem find_none_aux : ∀ N : Nat, ∀ (plat : Platform) (base : String) (es : List Entry),
    sizeOf es ≤ N → treeHasMatch plat es = false →
    findFirefoxBinary plat base es = none := by
  intro N
  induction N with
  | zero =>
    intro plat base es hsz hnm
    exfalso
    have h1 : 0 < sizeOf es := by
      cases es
      · simp
      · simp_arith
    omega
  | succ N ih =>
    intro plat base es hsz hnm
    rw [treeHasMatch, Bool.or_eq_false_iff] at hnm
    obtain ⟨hlev, hany⟩ := hnm
    have hrec_none : ∀ skipApp, recurseDirs plat base skipApp es = none := by
      intro skipApp
      apply recurseDirs_none_of
      intro nm ch hm
      have t1 := List.sizeOf_lt_of_mem hm
      have t2 : sizeOf ch < sizeOf (Entry.dir nm ch) := by
        simp_arith
      exact ih plat (joinP base nm) ch (by omega)
        (anyDir_false_sub plat es hany nm ch hm)
    rw [levelMatches, Bool.or_eq_false_iff] at hlev
    cases plat with
    | darwin =>
      have hd : darwinAppSearch base es = none :=
        darwinAppSearch_none base es (by simpa using hlev.1)
      simp [findFirefoxBinary, hd, hrec_none true, hrec_none false]
    | linux =>
      have hl : linuxSearch base es = none :=
        linuxSearch_none base es (by simpa using hlev.2)
      simp [findFirefoxBinary, hl, hrec_none false]
    | other =>
      simp [findFirefoxBinary, hrec_none false]

/-! ### Claim theorems -/

/-- C1: with `forceDownload = false`, if the per-URL cache file exists,
parses as JSON, and the recorded `binaryPath` exists on disk, then
`downloadFirefox` returns exactly the cached record, with an empty
action trace: no HTTP fetch, no extraction, no cache write. -/
theorem claim1_cache_hit_returns_cached (url cacheDir : String) (w : World) (c : CacheEntry)
    (hpresent : w.cacheFilePresent = true)
    (hparse : w.cacheParse = some c)
    (hbin : w.cachedBinaryOnDisk = true) :
    downloadFirefox url cacheDir false w = (Except.ok c, []) := by
  simp [downloadFirefox, hpresent, hparse, hbin]

/-- Witness for C1 at a concrete cached world. -/
theorem claim1_cache_hit_returns_cached_witness :
    downloadFirefox "https://example.org/firefox.tar.bz2" "/cache" false
      ⟨Platform.linux, true, some ⟨"/cache/bin", "1.0", "/cache/x"⟩, true,
        FetchOutcome.throws, false, false, [], none⟩ =
      (Except.ok (⟨"/cache/bin", "1.0", "/cache/x"⟩ : CacheEntry), []) :=
  claim1_cache_hit_returns_cached _ _ _ _ rfl rfl rfl

/-- C3: a fetched response with a non-success status makes
`downloadFirefox` fail with the download error, and no cache write
appears in the trace. -/
theorem claim3_http_error_no_cache_write (url cacheDir : String) (force : Bool) (w : World)
    (hmiss : force = true ∨ w.cacheFilePresent = false ∨ w.cacheParse = none ∨
      w.cachedBinaryOnDisk = false)
    (hfetch : w.fetchOutcome = FetchOutcome.status false) :
    (downloadFirefox url cacheDir force w).1 = Except.error DlError.downloadError ∧
      ∀ p e, Action.writeCache p e ∉ (downloadFirefox url cacheDir force w).2 := by
  rw [downloadFirefox_eq_fresh url cacheDir force w hmiss]
  simp [freshDownload, hfetch]

/-- Witness for C3 at a concrete world with a 404-style response. -/
theorem claim3_http_error_no_cache_write_witness :
    ((downloadFirefox "https://example.org/firefox.tar.bz2" "/cache" true
        ⟨Platform.linux, false, none, false, FetchOutcome.status false, false, false,
          [], none⟩).1 = Except.error DlError.downloadError ∧
      ∀ p e, Action.writeCache p e ∉
        (downloadFirefox "https://example.org/firefox.tar.bz2" "/cache" true
          ⟨Platform.linux, false, none, false, FetchOutcome.status false, false, false,
            [], none⟩).2) :=
  claim3_http_error_no_cache_write _ _ _ _ (Or.inl rfl) rfl

/-- C6: when the downloaded file name ends in none of `.tar.bz2`,
`.tar.gz`, `.dmg`, the run fails with the unsupported-format error and
the trace contains no tar extraction and no dmg extraction. -/
theorem claim6_unsupported_format (url cacheDir : String) (force : Bool) (w : World)
    (hmiss : force = true ∨ w.cacheFilePresent = false ∨ w.cacheParse = none ∨
      w.cachedBinaryOnDisk = false)
    (hfetch : w.fetchOutcome = FetchOutcome.status true)
    (hstream : w.streamOk = true)
    (hbz2 : strEndsWith (joinP cacheDir (stripQuery (basenameStr url))) ".tar.bz2" = false)
    (hgz : strEndsWith (joinP cacheDir (stripQuery (basenameStr url))) ".tar.gz" = false)
    (hdmg : strEndsWith (joinP cacheDir (stripQuery (basenameStr url))) ".dmg" = false) :
    (downloadFirefox url cacheDir force w).1 = Except.error DlError.unsupportedFormat ∧
      (∀ f c, Action.tarExtract f c ∉ (downloadFirefox url cacheDir force w).2) ∧
      (∀ f d, Action.dmgExtract f d ∉ (downloadFirefox url cacheDir force w).2) := by
  rw [downloadFirefox_eq_fresh url cacheDir force w hmiss]
  simp [freshDownload, extractDispatch, hfetch, hstream, hbz2, hgz, hdmg]

/-- Witness for C6 at a `.zip` URL. -/
theorem claim6_unsupported_format_witness :
    ((downloadFirefox "https://example.org/firefox.zip" "/cache" true
        ⟨Platform.linux, false, none, false, FetchOutcome.status true, true, false,
          [], none⟩).1 = Except.error DlError.unsupportedFormat ∧
      (∀ f c, Action.tarExtract f c ∉
        (downloadFirefox "https://example.org/firefox.zip" "/cache" true
          ⟨Platform.linux, false, none, false, FetchOutcome.status true, true, false,
            [], none⟩).2) ∧
      (∀ f d, Action.dmgExtract f d ∉
        (downloadFirefox "https://example.org/firefox.zip" "/cache" true
          ⟨Platform.linux, false, none, false, FetchOutcome.status true, true, false,
            [], none⟩).2)) :=
  claim6_unsupported_format _ _ _ _ (Or.inl rfl) rfl rfl
    (by decide) (by decide) (by decide)

/-- C8: a stale cache entry (file present, parses, recorded binary gone
from disk) is a silent miss: the run with `forceDownload = false` is
identical to the forced run, and it performs the HTTP fetch. -/
theorem claim8_stale_cache_silent_miss (url cacheDir : String) (w : World) (c : CacheEntry)
    (hpresent : w.cacheFilePresent = true)
    (hparse : w.cacheParse = some c)
    (hbin : w.cachedBinaryOnDisk = false) :
    downloadFirefox url cacheDir false w = downloadFirefox url cacheDir true w ∧
      Action.fetch url ∈ (downloadFirefox url cacheDir false w).2 := by
  have h1 : downloadFirefox url cacheDir false w = freshDownload url cacheDir w :=
    downloadFirefox_eq_fresh url cacheDir false w (Or.inr (Or.inr (Or.inr hbin)))
  have h2 : downloadFirefox url cacheDir true w = freshDownload url cacheDir w :=
    downloadFirefox_eq_fresh url cacheDir true w (Or.inl rfl)
  refine ⟨h1.trans h2.symm, ?_⟩
  rw [h1]
  exact fetch_mem_fresh url cacheDir w

/-- Witness for C8 at a concrete stale world. -/
theorem claim8_stale_cache_silent_miss_witness :
    (downloadFirefox "https://example.org/firefox.tar.bz2" "/cache" false
        ⟨Platform.linux, true, some ⟨"/cache/bin", "1.0", "/cache/x"⟩, false,
          FetchOutcome.status true, true, true,
          [Entry.dir "firefox" [Entry.file "firefox"]], some "147.0"⟩ =
      downloadFirefox "https://example.org/firefox.tar.bz2" "/cache" true
        ⟨Platform.linux, true, some ⟨"/cache/bin", "1.0", "/cache/x"⟩, false,
          FetchOutcome.status true, true, true,
          [Entry.dir "firefox" [Entry.file "firefox"]], some "147.0"⟩ ∧
      Action.fetch "https://example.org/firefox.tar.bz2" ∈
        (downloadFirefox "https://example.org/firefox.tar.bz2" "/cache" false
          ⟨Platform.linux, true, some ⟨"/cache/bin", "1.0", "/cache/x"⟩, false,
            FetchOutcome.status true, true, true,
            [Entry.dir "firefox" [Entry.file "firefox"]], some "147.0"⟩).2) :=
  claim8_stale_cache_silent_miss _ _ _ _ rfl rfl rfl

/-- C10: the `.tar.bz2` and `.tar.gz` dispatch branches take the
identical extraction action: tar extraction of the downloaded file into
the extraction directory, with the same two arguments. -/
theorem claim10_tar_branches_equal (p d : String)
    (h : strEndsWith p ".tar.bz2" = true ∨ strEndsWith p ".tar.gz" = true) :
    extractDispatch p d = some (Action.tarExtract p d) := by
  rcases h with h | h
  · simp [extractDispatch, h]
  · by_cases hb : strEndsWith p ".tar.bz2" <;> simp [extractDispatch, h, hb]

/-- Witness for C10 at a `.tar.gz` file. -/
theorem claim10_tar_branches_equal_witness :
    extractDispatch "/cache/firefox.tar.gz" "/cache/firefox-x" =
      some (Action.tarExtract "/cache/firefox.tar.gz" "/cache/firefox-x") :=
  claim10_tar_branches_equal _ _ (Or.inr (by decide))

/-- C2: when the platform-specific checks fail (the macOS bundle search
and its nested recursion yield nothing on darwin; the fixed Linux paths
are absent on linux), the locator falls back to recursing through the
subdirectories in order, applying `findFirefoxBinary` itself at each
level, and returns the first match found regardless of what follows it
(first-match-wins); the recursion reaches any depth, witnessed by the
chain family at every `k`. -/
theorem claim2_fallback_recursion (plat : Platform) (base : String)
    (es1 es2 c : List Entry) (n r : String) (k : Nat)
    (hdarwin : plat = Platform.darwin →
      darwinAppSearch base (es1 ++ Entry.dir n c :: es2) = none ∧
      recurseDirs plat base true (es1 ++ Entry.dir n c :: es2) = none)
    (hlinux : plat = Platform.linux →
      linuxSearch base (es1 ++ Entry.dir n c :: es2) = none)
    (hprev : ∀ nm ch, Entry.dir nm ch ∈ es1 →
      findFirefoxBinary plat (joinP base nm) ch = none)
    (hfound : findFirefoxBinary plat (joinP base n) c = some r) :
    findFirefoxBinary plat base (es1 ++ Entry.dir n c :: es2) = some r ∧
      findFirefoxBinary Platform.linux base (chainTree k) = some (chainPath base k) := by
  refine ⟨?_, find_chain k base⟩
  have hrec := recurseDirs_false_append plat base es1 n c es2 r hprev hfound
  cases plat with
  | darwin =>
    obtain ⟨hd1, hd2⟩ := hdarwin rfl
    simp [findFirefoxBinary, hd1, hd2, hrec]
  | linux =>
    have hl := hlinux rfl
    simp [findFirefoxBinary, hl, hrec]
  | other =>
    simp [findFirefoxBinary, hrec]

/-- Witness for C2: a failing sibling before the match, a further match
after it that is not taken, and the chain at depth 3. -/
theorem claim2_fallback_recursion_witness :
    (findFirefoxBinary Platform.linux "E"
        ([Entry.file "f0", Entry.dir "empty" []] ++
          Entry.dir "b" [Entry.dir "firefox" [Entry.file "firefox"]] ::
            [Entry.dir "z" [Entry.dir "firefox" [Entry.file "firefox"]]]) =
      some "E/b/firefox/firefox" ∧
      findFirefoxBinary Platform.linux "E" (chainTree 3) = some (chainPath "E" 3)) :=
  claim2_fallback_recursion Platform.linux "E" _ _ _ _ _ 3
    (fun h => absurd h (by decide))
    (fun _ => by decide)
    (by
      intro nm ch h
      simp at h
      obtain ⟨h1, h2⟩ := h
      subst h1; subst h2
      simp [findFirefoxBinary, recurseDirs, linuxSearch, existsAt, lookupPath, lookup])
    (by
      simp [findFirefoxBinary, linuxSearch, existsAt, lookupPath, lookup,
        Entry.name, joinP])

/-- C4: when no level of the extraction tree matches any executable rule
(`treeHasMatch` is false), the locator exhausts the tree and returns
`none`, and a run whose pipeline reaches the locator fails with the
binary-not-found error instead of returning a partial result. -/
theorem claim4_no_match_binary_not_found (plat : Platform) (base : String)
    (es : List Entry) (url cacheDir : String) (force : Bool) (w : World) (act : Action)
    (hnm : treeHasMatch plat es = false)
    (hplat : w.platform = plat) (htree : w.tree = es)
    (hmiss : force = true ∨ w.cacheFilePresent = false ∨ w.cacheParse = none ∨
      w.cachedBinaryOnDisk = false)
    (hfetch : w.fetchOutcome = FetchOutcome.status true)
    (hstream : w.streamOk = true)
    (hdisp : extractDispatch (joinP cacheDir (stripQuery (basenameStr url)))
      (joinP cacheDir ("firefox-" ++ urlHash url)) = some act)
    (hext : w.extractOk = true) :
    findFirefoxBinary plat base es = none ∧
      (downloadFirefox url cacheDir force w).1 =
        Except.error DlError.binaryNotFound := by
  have hnone : ∀ b, findFirefoxBinary plat b es = none :=
    fun b => find_none_aux (sizeOf es) plat b es (Nat.le_refl _) hnm
  refine ⟨hnone base, ?_⟩
  rw [downloadFirefox_eq_fresh _ _ _ _ hmiss]
  simp [freshDownload, hfetch, hstream, hdisp, hext, hplat, htree, hnone]

/-- Witness for C4 at a tree with files and directories but no matching
executable layout. -/
theorem claim4_no_match_binary_not_found_witness :
    (findFirefoxBinary Platform.linux "/cache/firefox-x"
        [Entry.file "README", Entry.dir "docs" [Entry.file "a.txt"],
          Entry.dir "firefox" [Entry.file "not-the-binary"]] = none ∧
      (downloadFirefox "https://example.org/firefox.tar.bz2" "/cache" true
          ⟨Platform.linux, false, none, false, FetchOutcome.status true, true, true,
            [Entry.file "README", Entry.dir "docs" [Entry.file "a.txt"],
              Entry.dir "firefox" [Entry.file "not-the-binary"]], none⟩).1 =
        Except.error DlError.binaryNotFound) :=
  claim4_no_match_binary_not_found Platform.linux "/cache/firefox-x" _ _ _ _ _
    (Action.tarExtract "/cache/firefox.tar.bz2" "/cache/firefox-https://example.org/firefox.tar.bz2")
    (by simp [treeHasMatch, anyDirHasMatch, levelMatches, linuxMatches, bundleMatches,
      existsAt, lookupPath, lookup, Entry.name])
    rfl rfl (Or.inl rfl) rfl rfl (by decide) rfl

/-- C5: on the flat-binary OS (Linux), any extraction tree in which the
relative path `firefox/firefox` exists makes the locator return exactly
`extractDir/firefox/firefox`. -/
theorem claim5_flat_layout_exact_path (base : String) (es : List Entry)
    (h : existsAt es ["firefox", "firefox"] = true) :
    findFirefoxBinary Platform.linux base es =
      some (joinP (joinP base "firefox") "firefox") := by
  simp [findFirefoxBinary, linuxSearch, h]

/-- Witness for C5 at a concrete flat-binary tree. -/
theorem claim5_flat_layout_exact_path_witness :
    findFirefoxBinary Platform.linux "/cache/firefox-x"
      [Entry.file "README", Entry.dir "firefox" [Entry.file "firefox"]] =
      some "/cache/firefox-x/firefox/firefox" :=
  claim5_flat_layout_exact_path _ _ (by decide)

/-- C9 does not hold for every URL: a query string may contain a slash
(legal in URLs), and then the source computes the basename before
stripping the query, naming the file from the tail of the query. For
`https://h/a?b/c` the last path segment is `a` (query `b/c`), but the
stream target is `/cache/c`, not `/cache/a`. -/
theorem claim9_query_slash_counterexample :
    (Action.streamTo (joinP "/cache" "c") ∈
      (downloadFirefox "https://h/a?b/c" "/cache" true
        ⟨Platform.linux, false, none, false, FetchOutcome.status true, true, false,
          [], none⟩).2) ∧
    (Action.streamTo (joinP "/cache" "a") ∉
      (downloadFirefox "https://h/a?b/c" "/cache" true
        ⟨Platform.linux, false, none, false, FetchOutcome.status true, true, false,
          [], none⟩).2) := by
  decide

/-- C9 (amended): for a URL whose last path segment is non-empty and
contains no slash or question mark, and whose query string (if any)
contains no slash, the pipeline streams the response body to the file
under the cache directory named by the last path segment with the query
string stripped. -/
theorem claim9_stream_filename (pre seg qs cacheDir : String) (force : Bool) (w : World)
    (hmiss : force = true ∨ w.cacheFilePresent = false ∨ w.cacheParse = none ∨
      w.cachedBinaryOnDisk = false)
    (hfetch : w.fetchOutcome = FetchOutcome.status true)
    (h1 : seg.toList ≠ [])
    (h2 : ∀ c ∈ seg.toList, c ≠ '/')
    (h3 : ∀ c ∈ seg.toList, c ≠ '?')
    (h4 : ∀ c ∈ qs.toList, c ≠ '/')
    (h5 : qs.toList = [] ∨ ∃ r, qs.toList = '?' :: r) :
    Action.streamTo (joinP cacheDir seg) ∈
      (downloadFirefox (pre ++ "/" ++ seg ++ qs) cacheDir force w).2 := by
  rw [downloadFirefox_eq_fresh _ _ _ _ hmiss]
  have h := streamTo_mem_fresh (pre ++ "/" ++ seg ++ qs) cacheDir w hfetch
  rwa [stripQuery_basename pre seg qs h1 h2 h3 h4 h5] at h

/-- Witness for C9 at a concrete URL with a query string. -/
theorem claim9_stream_filename_witness :
    Action.streamTo (joinP "/cache" "firefox.tar.bz2") ∈
      (downloadFirefox ("https://example.org/pub" ++ "/" ++ "firefox.tar.bz2" ++ "?dl=1")
        "/cache" true
        ⟨Platform.linux, false, none, false, FetchOutcome.status true, true, true,
          [Entry.dir "firefox" [Entry.file "firefox"]], some "147.0"⟩).2 :=
  claim9_stream_filename _ _ _ _ _ _ (Or.inl rfl) rfl (by decide) (by decide) (by decide)
    (by decide) (Or.inr ⟨['d', 'l', '=', '1'], by decide⟩)

/-- C7: whenever the dmg mount step succeeds (attach returns output from
which a mount point is parsed), the detach of that mount point appears
in the trace on every exit path of the bundle search and copy, and the
result of the run is unchanged by whether the detach itself succeeds
(a detach failure only adds a warning to the trace). -/
theorem claim7_dmg_always_unmount (dmgPath extractDir : String) (w : DmgWorld)
    (out mp : String)
    (hattach : w.attachOutput = some out)
    (hmp : findMountPoint out = some mp) :
    DmgAction.detach mp ∈ (extractDmg dmgPath extractDir w).2 ∧
      ∀ b : Bool,
        (extractDmg dmgPath extractDir ⟨w.attachOutput, w.lsOutput, w.copyOk, b⟩).1 =
          (extractDmg dmgPath extractDir w).1 := by
  constructor
  · cases hdet : w.detachOk <;>
      rcases hls : w.lsOutput with _ | ls <;>
      simp [extractDmg, hattach, hmp, hdet, hls] <;>
      rcases hfind : (lines ls).find? (fun name => strEndsWith name ".app") with _ | app <;>
      by_cases hcp : w.copyOk <;>
      simp [hfind, hcp]
  · intro b
    simp only [extractDmg, hattach, hmp]

/-- Witness for C7 at a concrete mounted world whose copy fails. -/
theorem claim7_dmg_always_unmount_witness :
    (DmgAction.detach "/Volumes/Firefox" ∈
      (extractDmg "/cache/firefox.dmg" "/cache/firefox-x"
        ⟨some "/dev/disk4s2          Apple_HFS                       /Volumes/Firefox",
          some "Firefox.app\n.background", false, false⟩).2 ∧
      ∀ b : Bool,
        (extractDmg "/cache/firefox.dmg" "/cache/firefox-x"
          ⟨(⟨some "/dev/disk4s2          Apple_HFS                       /Volumes/Firefox",
              some "Firefox.app\n.background", false, false⟩ : DmgWorld).attachOutput,
            (⟨some "/dev/disk4s2          Apple_HFS                       /Volumes/Firefox",
              some "Firefox.app\n.background", false, false⟩ : DmgWorld).lsOutput,
            (⟨some "/dev/disk4s2          Apple_HFS                       /Volumes/Firefox",
              some "Firefox.app\n.background", false, false⟩ : DmgWorld).copyOk, b⟩).1 =
          (extractDmg "/cache/firefox.dmg" "/cache/firefox-x"
            ⟨some "/dev/disk4s2          Apple_HFS                       /Volumes/Firefox",
              some "Firefox.app\n.background", false, false⟩).1) :=
  claim7_dmg_always_unmount _ _ _ _ _ rfl (by decide)

end FirefoxDownloader
